import Mathlib

/-!
Verification development for the SimpleScript tree-walking interpreter.

The definitions below are a shallow embedding of the evaluator fragment in
`src/bin/interpreter.py`, the symbol environment in `src/bin/symbol_table.py`
and the runtime-error traceback in `src/bin/errors.py`.

Python numbers are either `int` (arbitrary precision, exact) or `float`
(finite IEEE binary64); `PyNumber` models both.  A finite binary64 is a
dyadic rational `mant * 2 ^ exp`, and binary64 arithmetic is exact
arithmetic followed by round-to-nearest-even at 53 significant bits
(`dyNorm`); numeric comparisons in Python are exact on the represented
values.  Overflow to infinity and subnormal underflow are outside the
embedded fragment (all values in the claims are far inside normal range),
and an `int` operand of a float operation is taken exactly (Python converts
it to a double first, which is exact below 2^53).  Position spans and
attached contexts carried by runtime values are diagnostic-only (spec
section 3: they do not participate in value equality) and are omitted from
`Value`; the traceback model (for the error surface) keeps the positions it
actually reads.

Python code that raises an uncaught exception (e.g. an `AttributeError` on
`None`, or a `KeyError` from `del`) is modelled by an explicit crash outcome,
distinct from the interpreter's own error-carrying results.
-/

/-- Floor of the base-2 logarithm, fuel-driven so that it evaluates by
kernel reduction; the fuel `n` always suffices since the recursion depth is
at most `log2 n`. -/
def log2Aux : Nat → Nat → Nat
  | 0, _ => 0
  | fuel + 1, n => if n ≥ 2 then log2Aux fuel (n / 2) + 1 else 0

/-- `intLog2 n` is the floor of `log2 n` for `n ≥ 1` (and `0` at `0`). -/
def intLog2 (n : Nat) : Nat := log2Aux n n

/-- Round `s / 2 ^ shift` to the nearest integer, ties to even — the IEEE
round-to-nearest-even significand rounding. -/
def rshiftRNE (s : Int) (shift : Nat) : Int :=
  let d : Int := 2 ^ shift
  let q := s.ediv d
  let r := s.emod d
  if 2 * r < d then q
  else if d < 2 * r then q + 1
  else if q % 2 = 0 then q else q + 1

/-- Round an exact dyadic value `m * 2 ^ e` to 53 significant bits — binary64
round-to-nearest-even for finite values in normal range (overflow and
subnormals are outside the fragment). -/
def dyNorm : Int × Int → Int × Int
  | (m, e) =>
    if m = 0 then (0, 0)
    else
      let len := intLog2 m.natAbs + 1
      if len ≤ 53 then (m, e)
      else
        let shift := len - 53
        (rshiftRNE m shift, e + shift)

/-- Exact dyadic sum followed by binary64 rounding. -/
def dyAdd (a b : Int × Int) : Int × Int :=
  let emin := min a.2 b.2
  dyNorm (a.1 * 2 ^ (a.2 - emin).toNat + b.1 * 2 ^ (b.2 - emin).toNat, emin)

/-- Exact dyadic product followed by binary64 rounding. -/
def dyMul (a b : Int × Int) : Int × Int :=
  dyNorm (a.1 * b.1, a.2 + b.2)

/-- Exact strict comparison of two dyadic values. -/
def dyLtb : Int × Int → Int × Int → Bool
  | (m1, e1), (m2, e2) =>
    if e1 ≤ e2 then decide (m1 < m2 * 2 ^ (e2 - e1).toNat)
    else decide (m1 * 2 ^ (e1 - e2).toNat < m2)

/-- A Python number: an exact `int`, or a finite binary64 `float` with value
`mant * 2 ^ exp`. -/
inductive PyNumber where
  | int (v : Int)
  | float (mant : Int) (exp : Int)

/-- The dyadic value of a Python number (an `int` is `v * 2 ^ 0`). -/
def PyNumber.toDyadic : PyNumber → Int × Int
  | .int v => (v, 0)
  | .float m e => (m, e)

/-- The exact rational value of a Python number (used in claim statements
only). -/
def PyNumber.toRat (a : PyNumber) : ℚ :=
  (a.toDyadic.1 : ℚ) * (2 : ℚ) ^ a.toDyadic.2

/-- Python `+` on numbers: `int + int` is exact; any float operand gives the
binary64 rounding of the exact sum. -/
def PyNumber.add : PyNumber → PyNumber → PyNumber
  | .int a, .int b => .int (a + b)
  | a, b =>
    let p := dyAdd a.toDyadic b.toDyadic
    .float p.1 p.2

/-- Python `-` on numbers (float negation is exact, so subtraction is the
rounded exact difference). -/
def PyNumber.sub : PyNumber → PyNumber → PyNumber
  | .int a, .int b => .int (a - b)
  | a, b =>
    let p := dyAdd a.toDyadic (-(b.toDyadic.1), b.toDyadic.2)
    .float p.1 p.2

/-- Python `*` on numbers. -/
def PyNumber.mul : PyNumber → PyNumber → PyNumber
  | .int a, .int b => .int (a * b)
  | a, b =>
    let p := dyMul a.toDyadic b.toDyadic
    .float p.1 p.2

/-- Python `<` on numbers: exact comparison of the represented values. -/
def PyNumber.ltb (a b : PyNumber) : Bool :=
  dyLtb a.toDyadic b.toDyadic

/-- Python `>= 0` on a number: exact. -/
def PyNumber.geZerob (a : PyNumber) : Bool :=
  !(PyNumber.ltb a (.int 0))

/-- Truthiness of a number: its value is nonzero. -/
def PyNumber.isTruthyb (a : PyNumber) : Bool :=
  decide (a.toDyadic.1 ≠ 0)

/-- Runtime value fragment: `Number` (payload `PyNumber`) and `List`.
Mirrors `bin/number.py` / `bin/list.py` payloads as used by the evaluator. -/
inductive Value where
  | number (v : PyNumber)
  | list (elems : List Value)

/-- Association-list lookup mirroring Python `dict.get(key, None)`. -/
def lookupKey : List (String × Value) → String → Option Value
  | [], _ => none
  | (k, v) :: rest, n => if k = n then some v else lookupKey rest n

/-- Association-list update mirroring Python `dict[key] = value`: an existing
key keeps its slot, a new key is appended. -/
def setKey : List (String × Value) → String → Value → List (String × Value)
  | [], n, v => [(n, v)]
  | (k, w) :: rest, n, v =>
    if k = n then (k, v) :: rest else (k, w) :: setKey rest n v

/-- Association-list deletion mirroring Python `del dict[key]`: `none` models
the `KeyError` raised when the key is absent. -/
def removeKey : List (String × Value) → String → Option (List (String × Value))
  | [], _ => none
  | (k, w) :: rest, n =>
    if k = n then some rest
    else
      match removeKey rest n with
      | some rest1 => some ((k, w) :: rest1)
      | none => none

/-- `SymbolTable` from `src/bin/symbol_table.py`: a local mapping plus an
optional parent table. -/
inductive SymbolTable where
  | mk (symbols : List (String × Value)) (parent : Option SymbolTable)

/-- Local mapping of a table. -/
def SymbolTable.symbols : SymbolTable → List (String × Value)
  | .mk syms _ => syms

/-- Parent link of a table. -/
def SymbolTable.parent : SymbolTable → Option SymbolTable
  | .mk _ p => p

/-- `SymbolTable.__init__` (symbol_table.py lines 10-22): an empty local
dictionary pre-populated with the special values `NULL = Number(0)`,
`TRUE = Number(1)`, `FALSE = Number(0)`, plus the given parent. -/
def SymbolTable.new (parent : Option SymbolTable) : SymbolTable :=
  .mk [("NULL", .number (.int 0)), ("TRUE", .number (.int 1)), ("FALSE", .number (.int 0))]
    parent

mutual

/-- `SymbolTable.get` (symbol_table.py lines 24-34) at its only used default
(`default=None`): look up the local dictionary; on a miss, recurse into the
parent chain (`getOpt` handles the optional parent); return `none` when the
name is bound nowhere. -/
def SymbolTable.get : SymbolTable → String → Option Value
  | .mk syms parent, n =>
    match lookupKey syms n with
    | some v => some v
    | none => SymbolTable.getOpt parent n

/-- Parent-chain step of `SymbolTable.get`: an absent parent yields `none`. -/
def SymbolTable.getOpt : Option SymbolTable → String → Option Value
  | some p, n => p.get n
  | none, _ => none

end

/-- `SymbolTable.set` (symbol_table.py lines 36-42): always writes into the
local dictionary only. -/
def SymbolTable.set : SymbolTable → String → Value → SymbolTable
  | .mk syms parent, n, v => .mk (setKey syms n v) parent

/-- `SymbolTable.remove` (symbol_table.py lines 44-49): `del self.symbols[name]`
on the local dictionary only; `none` models the `KeyError` Python raises when
the name is absent from the local dictionary. -/
def SymbolTable.remove (st : SymbolTable) (n : String) : Option SymbolTable :=
  match removeKey st.symbols n with
  | some syms1 => some (.mk syms1 st.parent)
  | none => none

/-- Whether a name is bound in the local dictionary of a table. -/
def SymbolTable.localContains (st : SymbolTable) (n : String) : Bool :=
  (lookupKey st.symbols n).isSome

mutual

/-- Whether a name is bound anywhere along the parent chain. -/
def SymbolTable.chainContains : SymbolTable → String → Bool
  | .mk syms parent, n =>
    (lookupKey syms n).isSome || SymbolTable.chainContainsOpt parent n

/-- Parent-chain step of `chainContains`. -/
def SymbolTable.chainContainsOpt : Option SymbolTable → String → Bool
  | some p, n => p.chainContains n
  | none, _ => false

end

mutual

/-- The parent chain of a table, the table itself first. -/
def SymbolTable.chain : SymbolTable → List SymbolTable
  | .mk syms parent => .mk syms parent :: SymbolTable.chainOpt parent

/-- Parent-chain step of `chain`. -/
def SymbolTable.chainOpt : Option SymbolTable → List SymbolTable
  | some p => p.chain
  | none => []

end

/-- Runtime error surfaced by the evaluator (`ActiveRuntimeError` in
`src/bin/errors.py`); only the detail string matters to the claims, the
position span and context are diagnostic-only. -/
structure ActiveRuntimeError where
  details : String

/-- Modelled from the spec: the control-flow result record of section 4.D
(`bin/runtime_result.py` is not part of the sources).  Fields
{value, error, return-value, break-flag, continue-flag}. -/
structure RuntimeResult where
  value : Option Value
  error : Option ActiveRuntimeError
  func_return_value : Option Value
  loop_should_continue : Bool
  loop_should_break : Bool

/-- Modelled from the spec: a freshly constructed `RuntimeResult()` with no
value, no error and no control-flow signal. -/
def RuntimeResult.new : RuntimeResult :=
  ⟨none, none, none, false, false⟩

/-- Modelled from the spec: `success(value)` — the value path; creators
establish the one-meaningful-field discipline, so every other field is
cleared. -/
def RuntimeResult.success (_self : RuntimeResult) (v : Value) : RuntimeResult :=
  ⟨some v, none, none, false, false⟩

/-- Modelled from the spec: `failure(error)` — the error path. -/
def RuntimeResult.failure (_self : RuntimeResult) (e : ActiveRuntimeError) : RuntimeResult :=
  ⟨none, some e, none, false, false⟩

/-- Modelled from the spec: `success_return(value)` — carries a function
return value. -/
def RuntimeResult.success_return (_self : RuntimeResult) (v : Value) : RuntimeResult :=
  ⟨none, none, some v, false, false⟩

/-- Modelled from the spec: `success_continue()` — carries a loop continue. -/
def RuntimeResult.success_continue (_self : RuntimeResult) : RuntimeResult :=
  ⟨none, none, none, true, false⟩

/-- Modelled from the spec: `success_break()` — carries a loop break. -/
def RuntimeResult.success_break (_self : RuntimeResult) : RuntimeResult :=
  ⟨none, none, none, false, true⟩

/-- Modelled from the spec: `register(inner)` copies inner's error and
control-flow signals into self (overwriting the previous ones) and yields
inner's value for direct use; self's own value slot is not touched. -/
def RuntimeResult.register (self inner : RuntimeResult) : RuntimeResult × Option Value :=
  ({ self with
      error := inner.error
      func_return_value := inner.func_return_value
      loop_should_continue := inner.loop_should_continue
      loop_should_break := inner.loop_should_break },
   inner.value)

/-- Modelled from the spec: `should_return()` is true when any of
{error, return-value, break-flag, continue-flag} is set. -/
def RuntimeResult.should_return (r : RuntimeResult) : Bool :=
  r.error.isSome || r.func_return_value.isSome ||
    r.loop_should_continue || r.loop_should_break

/-- Binary operator tokens the embedded fragment dispatches on
(interpreter.py lines 63-92): `TP_PLUS`, `TP_MINUS`, `TP_MUL`, `TP_LT`, and
the keywords `AND` / `OR`. -/
inductive BinOp where
  | plus
  | minus
  | mul
  | lt
  | andKw
  | orKw

/-- AST node fragment consumed by the evaluator (spec section 6); each
constructor mirrors the same-named Python node class. -/
inductive Node where
  | numberNode (v : PyNumber)
  | binOpNode (left : Node) (op : BinOp) (right : Node)
  | varAccessNode (name : String)
  | varAssignNode (name : String) (valueNode : Node)
  | forNode (varName : String) (startNode : Node) (endNode : Node)
      (stepNode : Option Node) (body : Node) (shouldReturnNull : Bool)
  | returnNode (nodeToReturn : Option Node)
  | continueNode
  | breakNode

/-- Modelled from the spec: the `Number` value operations of section 4.A
(`bin/number.py` is not part of the sources).  Operations return either a
value or an error; comparisons and the logical operations return
`Number(int(...))` computed from the exact values; operand combinations
outside the embedded fragment return the illegal-operation runtime error. -/
def applyBinOp : BinOp → Value → Value → Except ActiveRuntimeError Value
  | .plus, .number a, .number b => .ok (.number (a.add b))
  | .minus, .number a, .number b => .ok (.number (a.sub b))
  | .mul, .number a, .number b => .ok (.number (a.mul b))
  | .lt, .number a, .number b =>
      .ok (.number (.int (if a.ltb b then 1 else 0)))
  | .andKw, .number a, .number b =>
      .ok (.number (.int (if a.isTruthyb && b.isTruthyb then 1 else 0)))
  | .orKw, .number a, .number b =>
      .ok (.number (.int (if a.isTruthyb || b.isTruthyb then 1 else 0)))
  | _, _, _ => .error ⟨"Illegal operation"⟩

/-- Python attribute access `value_obj.value`: only `Number` has the `value`
attribute; on any other object the access raises an `AttributeError`. -/
def Value.asNumber : Value → Option PyNumber
  | .number v => some v
  | _ => none

/-- Result of one evaluator step: a control-flow result together with the
(possibly updated) symbol table of the current context, an uncaught Python
exception, or exhaustion of the step budget (the source's `while` loop can
run forever, so evaluation is fuel-indexed). -/
inductive Outcome where
  | ok (rr : RuntimeResult) (st : SymbolTable)
  | crash (msg : String)
  | fuelOut

/-- Work items of the evaluator: visiting a node, or one residual `while`
iteration of `visit_fornode` (interpreter.py lines 210-222) carried as
explicit loop state {loop variable, body, end, step, index, collected
elements, the method's shared `runtime_result`, `should_return_null`}. -/
inductive EvalTask where
  | node (n : Node)
  | forWhile (varName : String) (body : Node) (endV : PyNumber) (stepV : PyNumber)
      (index : PyNumber) (elements : List Value) (rr : RuntimeResult) (srn : Bool)

/-- The `Interpreter` dispatch of `src/bin/interpreter.py`, fuel-indexed.
`EvalTask.node` arms translate the `visit_*` methods one-to-one; the
`EvalTask.forWhile` arm is the body of the `while condition():` loop of
`visit_fornode`.  The symbol table of the caller's context is threaded as
explicit state. -/
def run : Nat → EvalTask → SymbolTable → Outcome
  | 0, _, _ => .fuelOut
  | _ + 1, .node (.numberNode v), st =>
    -- visit_numbernode (lines 40-48)
    .ok (RuntimeResult.new.success (.number v)) st
  | fuel + 1, .node (.binOpNode leftN op rightN), st =>
    -- visit_binopnode (lines 50-97): BOTH children are registered before
    -- should_return is consulted once.
    match run fuel (.node leftN) st with
    | .crash m => .crash m
    | .fuelOut => .fuelOut
    | .ok leftRes st1 =>
      let (rr1, leftVal) := RuntimeResult.new.register leftRes
      match run fuel (.node rightN) st1 with
      | .crash m => .crash m
      | .fuelOut => .fuelOut
      | .ok rightRes st2 =>
        let (rr2, rightVal) := rr1.register rightRes
        if rr2.should_return then .ok rr2 st2
        else
          -- lines 93-94 re-test should_return after the dispatch; nothing in
          -- between can change it, so that branch is unreachable here.
          match leftVal, rightVal with
          | some lv, some rv =>
            match applyBinOp op lv rv with
            | .error e => .ok (rr2.failure e) st2
            | .ok res => .ok (rr2.success res) st2
          | _, _ =>
            -- a missing operand is Python None; dispatching e.g.
            -- left_node.add_to(...) on it raises AttributeError.  (A missing
            -- right operand alone cannot reach here: its non-normal result
            -- would have set should_return.)
            .crash "AttributeError: NoneType operand in visit_binopnode"
  | _ + 1, .node (.varAccessNode name), st =>
    -- visit_varaccessnode (lines 119-135): when the name is missing, the
    -- failure result is built but NOT returned; the method falls through to
    -- var_value.copy() on None, raising AttributeError.
    match st.get name with
    | none =>
      let _unreturned :=
        RuntimeResult.new.failure ⟨"VAR \"" ++ name ++ "\" not defined"⟩
      .crash "AttributeError: NoneType object has no attribute copy"
    | some v =>
      -- value copied and given fresh position/context (diagnostic-only here)
      .ok (RuntimeResult.new.success v) st
  | fuel + 1, .node (.varAssignNode name valueNode), st =>
    -- visit_varassignnode (lines 137-150)
    match run fuel (.node valueNode) st with
    | .crash m => .crash m
    | .fuelOut => .fuelOut
    | .ok vRes st1 =>
      let (rr1, vVal) := RuntimeResult.new.register vRes
      if rr1.should_return then .ok rr1 st1
      else
        match vVal with
        | some v => .ok (rr1.success v) (st1.set name v)
        | none => .crash "symbol table stores a missing value"
  | fuel + 1, .node (.forNode varName startN endN stepN body srn), st =>
    -- visit_fornode (lines 177-225): evaluate start, end, then the optional
    -- step (defaulting to Number(1)), then run the while loop.
    match run fuel (.node startN) st with
    | .crash m => .crash m
    | .fuelOut => .fuelOut
    | .ok startRes st1 =>
      let (rrA, startVal) := RuntimeResult.new.register startRes
      if rrA.should_return then .ok rrA st1
      else
        match run fuel (.node endN) st1 with
        | .crash m => .crash m
        | .fuelOut => .fuelOut
        | .ok endRes st2 =>
          let (rrB, endVal) := rrA.register endRes
          if rrB.should_return then .ok rrB st2
          else
            match stepN with
            | some sN =>
              match run fuel (.node sN) st2 with
              | .crash m => .crash m
              | .fuelOut => .fuelOut
              | .ok stepRes st3 =>
                let (rrC, stepVal) := rrB.register stepRes
                if rrC.should_return then .ok rrC st3
                else
                  match startVal.bind Value.asNumber with
                  | none => .crash "AttributeError: no attribute value"
                  | some s =>
                    match stepVal.bind Value.asNumber with
                    | none => .crash "AttributeError: no attribute value"
                    | some k =>
                      match endVal.bind Value.asNumber with
                      | none => .crash "AttributeError: no attribute value"
                      | some e =>
                        run fuel (.forWhile varName body e k s [] rrC srn) st3
            | none =>
              -- default step: Number(1), not registered
              match startVal.bind Value.asNumber with
              | none => .crash "AttributeError: no attribute value"
              | some s =>
                match endVal.bind Value.asNumber with
                | none => .crash "AttributeError: no attribute value"
                | some e =>
                  run fuel (.forWhile varName body e (.int 1) s [] rrB srn) st2
  | fuel + 1, .node (.returnNode nodeToReturn), st =>
    -- visit_returnnode (lines 322-336)
    match nodeToReturn with
    | some n' =>
      match run fuel (.node n') st with
      | .crash m => .crash m
      | .fuelOut => .fuelOut
      | .ok vRes st1 =>
        let (rr1, vVal) := RuntimeResult.new.register vRes
        if rr1.should_return then .ok rr1 st1
        else
          match vVal with
          | some v => .ok (rr1.success_return v) st1
          | none => .crash "success_return of a missing value"
    | none => .ok (RuntimeResult.new.success_return (.number (.int 0))) st
  | _ + 1, .node .continueNode, st =>
    -- visit_continuenode (lines 338-345)
    .ok RuntimeResult.new.success_continue st
  | _ + 1, .node .breakNode, st =>
    -- visit_breaknode (lines 347-354)
    .ok RuntimeResult.new.success_break st
  | fuel + 1, .forWhile varName body endV stepV index elements rr srn, st =>
    -- while condition(): ... (lines 205-222); the direction of the
    -- condition is fixed by the sign of the step; numeric comparisons are
    -- exact, the index update is Python numeric addition.
    if (if stepV.geZerob then index.ltb endV else endV.ltb index) then
      let st1 := st.set varName (.number index)
      let index1 := index.add stepV
      match run fuel (.node body) st1 with
      | .crash m => .crash m
      | .fuelOut => .fuelOut
      | .ok bodyRes st2 =>
        let (rr1, currentVal) := rr.register bodyRes
        if rr1.should_return && !rr1.loop_should_continue && !rr1.loop_should_break then
          .ok rr1 st2
        else if rr1.loop_should_continue then
          run fuel (.forWhile varName body endV stepV index1 elements rr1 srn) st2
        else if rr1.loop_should_break then
          .ok (rr1.success (if srn then .number (.int 0) else .list elements)) st2
        else
          match currentVal with
          | some cv =>
            run fuel (.forWhile varName body endV stepV index1 (elements ++ [cv]) rr1 srn) st2
          | none =>
            -- a normal visit result always carries a value, so this branch
            -- is unreachable (Python would append None to elements).
            run fuel (.forWhile varName body endV stepV index1 elements rr1 srn) st2
    else
      .ok (rr.success (if srn then .number (.int 0) else .list elements)) st

/-- `Interpreter.visit`: dispatch on the node variant. -/
def visit (fuel : Nat) (node : Node) (st : SymbolTable) : Outcome :=
  run fuel (.node node) st

/-- User-defined `Function` value (interpreter.py lines 363-377): name, body
AST, parameter names, auto-return flag, plus the environment of the captured
defining context (`set_context`); only the environment of that context is
relevant to execution. -/
structure FunctionV where
  name : Option String
  body_node : Node
  arg_names : List String
  should_auto_return : Bool
  captured_context_env : Option SymbolTable

/-- Result of `Function.execute`: the activation's environment dies with the
call, so only the control-flow result (or a crash / fuel exhaustion from the
body) is returned. -/
inductive FnOutcome where
  | ok (rr : RuntimeResult)
  | crash (msg : String)
  | fuelOut

/-- Modelled from the spec: `check_and_populate_args` of section 4.F steps 1
and 4 (`bin/function.py` is not part of the sources).  The arity check fails
with a too-many / too-few argument error; on success each parameter name is
bound to the corresponding argument in the activation environment, and the
returned result carries no value, error or signal. -/
def check_and_populate_args (argNames : List String) (args : List Value)
    (env : SymbolTable) : RuntimeResult × SymbolTable :=
  if argNames.length < args.length then
    (RuntimeResult.new.failure ⟨"Too many args passed"⟩, env)
  else if args.length < argNames.length then
    (RuntimeResult.new.failure ⟨"Too few args passed"⟩, env)
  else
    (RuntimeResult.new, (argNames.zip args).foldl (fun e p => e.set p.1 p.2) env)

/-- `Function.execute` (interpreter.py lines 382-399).  The activation
environment is a fresh `SymbolTable` whose parent is the captured defining
context's environment (`generate_new_context`, modelled from spec section 4.F
steps 2-3).  The final selection
`(value if self.should_auto_return else None) or runtime_result.func_return_value or Number(0)`
is Python truthiness on objects: a present runtime value is always truthy, a
missing one is `None`, so the chain picks the first present entry. -/
def FunctionV.execute (fuel : Nat) (f : FunctionV) (args : List Value) : FnOutcome :=
  let execEnv := SymbolTable.new f.captured_context_env
  let popped := check_and_populate_args f.arg_names args execEnv
  let (rr1, _) := RuntimeResult.new.register popped.1
  if rr1.should_return then .ok rr1
  else
    match visit fuel f.body_node popped.2 with
    | .crash m => .crash m
    | .fuelOut => .fuelOut
    | .ok bodyRes _st2 =>
      let (rr2, value) := rr1.register bodyRes
      if rr2.should_return && rr2.func_return_value.isNone then .ok rr2
      else
        let autoVal : Option Value := if f.should_auto_return then value else none
        let chosen : Option Value :=
          match autoVal with
          | some v => some v
          | none => rr2.func_return_value
        match chosen with
        | some v => .ok (rr2.success v)
        | none => .ok (rr2.success (.number (.int 0)))

/-- Source position as read by the traceback generator: file name and 0-based
line index (errors.py prints `ln + 1`). -/
structure Position where
  fn : String
  ln : Nat

/-- Execution context (`bin/context.py` collaborator, spec section 3):
display name, optional entry position in the parent, optional parent
context. -/
inductive Context where
  | mk (display_name : String) (parent_entry_pos : Option Position)
      (parent_context : Option Context)

/-- Display name of a context. -/
def Context.display_name : Context → String
  | .mk d _ _ => d

/-- One traceback line: `File <fn>, line <ln+1>, in <display_name>`. -/
def frameString (p : Position) (displayName : String) : String :=
  "File " ++ p.fn ++ ", line " ++ toString (p.ln + 1) ++ ", in " ++ displayName ++ "\n"

mutual

/-- The `while context:` loop of `ActiveRuntimeError.generate_traceback`
(errors.py lines 74-84): each frame is PREPENDED to the accumulated string,
then the walk moves to the parent entry position and parent context.  If the
walk continues into a parent context without an entry position, the next
format call reads attributes of `None` and raises (modelled as `none`). -/
def generateTracebackLoop : Context → Position → String → Option String
  | .mk d pep pc, p, acc => generateTracebackStep pc pep (frameString p d ++ acc)

/-- One advance of the traceback walk: `position = context.parent_entry_pos;
context = context.parent_context`. -/
def generateTracebackStep : Option Context → Option Position → String → Option String
  | none, _, acc => some acc
  | some c1, some p1, acc => generateTracebackLoop c1 p1 acc
  | some _, none, _ => none

end

/-- `ActiveRuntimeError.generate_traceback` (errors.py lines 69-85): walk the
context chain from the failure site, then prefix the header line. -/
def generate_traceback (context : Option Context) (start_pos : Position) :
    Option String :=
  match context with
  | none => some "\nTraceback (most recent call last):\n"
  | some c =>
    match generateTracebackLoop c start_pos "" with
    | some s => some ("\nTraceback (most recent call last):\n" ++ s)
    | none => none

mutual

/-- Spec-side reading of the traceback claim: the (position, display-name)
frame data collected along the parent links, innermost context first;
`none` when a parent context lacks an entry position (the crash case of the
source loop). -/
def contextFrames : Context → Position → Option (List (Position × String))
  | .mk d pep pc, p =>
    match contextFramesStep pc pep with
    | some rest => some ((p, d) :: rest)
    | none => none

/-- One advance of the spec-side frame collection. -/
def contextFramesStep : Option Context → Option Position → Option (List (Position × String))
  | none, _ => some []
  | some c1, some p1 => contextFrames c1 p1
  | some _, none => none

end

mutual

/-- Number of contexts along the parent chain. -/
def Context.chainLength : Context → Nat
  | .mk _ _ pc => Context.chainLengthOpt pc + 1

/-- Parent-chain step of `chainLength`. -/
def Context.chainLengthOpt : Option Context → Nat
  | some c1 => c1.chainLength
  | none => 0

end

/-- Concatenation of formatted frames in list order. -/
def concatFrames : List (Position × String) → String
  | [] => ""
  | (p, d) :: rest => frameString p d ++ concatFrames rest

/-- `lookupKey` after `setKey` at the written key yields the new value. -/
lemma lookupKey_setKey_self (l : List (String × Value)) (n : String) (v : Value) :
    lookupKey (setKey l n v) n = some v := by
  induction l with
  | nil => simp [setKey, lookupKey]
  | cons hd tl ih =>
    obtain ⟨k, w⟩ := hd
    by_cases hkn : k = n
    · subst hkn
      simp [setKey, lookupKey]
    · simp [setKey, lookupKey, hkn, ih]

/-- `lookupKey` after `setKey` at another key is unchanged. -/
lemma lookupKey_setKey_other (l : List (String × Value)) (n m : String) (v : Value)
    (h : m ≠ n) : lookupKey (setKey l n v) m = lookupKey l m := by
  induction l with
  | nil => simp [setKey, lookupKey, Ne.symm h]
  | cons hd tl ih =>
    obtain ⟨k, w⟩ := hd
    by_cases hkn : k = n
    · subst hkn
      simp [setKey, lookupKey, Ne.symm h]
    · simp [setKey, lookupKey, hkn, ih]

/-- Overwriting the same key twice keeps only the second write. -/
lemma setKey_setKey (l : List (String × Value)) (n : String) (a b : Value) :
    setKey (setKey l n a) n b = setKey l n b := by
  induction l with
  | nil => simp [setKey]
  | cons hd tl ih =>
    obtain ⟨k, w⟩ := hd
    by_cases hkn : k = n
    · subst hkn
      simp [setKey]
    · simp [setKey, hkn, ih]

/-- Two consecutive `set` calls for the same name collapse to the second. -/
lemma SymbolTable.set_set (st : SymbolTable) (n : String) (a b : Value) :
    (st.set n a).set n b = st.set n b := by
  cases st
  simp [SymbolTable.set, setKey_setKey]

/-- After `set`, `get` of the written name yields the written value. -/
lemma SymbolTable.get_set_self (st : SymbolTable) (n : String) (v : Value) :
    (st.set n v).get n = some v := by
  cases st with
  | mk syms parent =>
    show SymbolTable.get (.mk (setKey syms n v) parent) n = some v
    rw [SymbolTable.get, lookupKey_setKey_self]

/-- Python addition of two ints is exact integer addition. -/
lemma PyNumber.add_int_int (a b : Int) :
    PyNumber.add (.int a) (.int b) = .int (a + b) := rfl

/-- Python `<` on two ints is the integer comparison. -/
lemma PyNumber.ltb_int_int (a b : Int) :
    PyNumber.ltb (.int a) (.int b) = decide (a < b) := by
  simp [PyNumber.ltb, PyNumber.toDyadic, dyLtb]

/-- Python `>= 0` on an int is the integer comparison. -/
lemma PyNumber.geZerob_int (k : Int) :
    PyNumber.geZerob (.int k) = decide (0 ≤ k) := by
  rw [PyNumber.geZerob, PyNumber.ltb_int_int]
  by_cases h : k < 0
  · simp [h, not_le.mpr h]
  · simp [h, not_lt.mp h]

/-- The iteration-count formula of the claims: `max(0, ceil((e - s) / k))`. -/
def forSpecCount (s e k : Int) : Int :=
  max 0 ⌈((e : ℚ) - (s : ℚ)) / (k : ℚ)⌉

/-- When the count formula is zero the loop condition of `visit_fornode` is
false at the start index (integer-valued bounds and step). -/
lemma cond_false_of_count_zero {i e k : Int} (hk : k ≠ 0)
    (h : forSpecCount i e k = 0) :
    (if PyNumber.geZerob (.int k) then PyNumber.ltb (.int i) (.int e)
     else PyNumber.ltb (.int e) (.int i)) = false := by
  rw [PyNumber.geZerob_int, PyNumber.ltb_int_int, PyNumber.ltb_int_int]
  have hceil : ⌈((e : ℚ) - (i : ℚ)) / (k : ℚ)⌉ ≤ 0 := by
    by_contra hlt
    push_neg at hlt
    simp only [forSpecCount] at h
    omega
  have hdiv : ((e : ℚ) - (i : ℚ)) / (k : ℚ) ≤ 0 := by
    have := Int.ceil_le.mp hceil
    simpa using this
  rcases lt_or_gt_of_ne hk with hneg | hpos
  · have hknegQ : (k : ℚ) < 0 := by exact_mod_cast hneg
    have hnum : 0 ≤ (e : ℚ) - (i : ℚ) := by
      rcases div_nonpos_iff.mp hdiv with ⟨h1, _⟩ | ⟨_, h2⟩
      · exact h1
      · linarith
    have hcastle : (i : ℚ) ≤ (e : ℚ) := by linarith
    have hle : i ≤ e := by exact_mod_cast hcastle
    have hkneg : ¬(decide (0 ≤ k) = true) := by simp; omega
    rw [if_neg hkneg]
    have : ¬(e < i) := by omega
    exact decide_eq_false this
  · have hkposQ : (0 : ℚ) < k := by exact_mod_cast hpos
    have hnum : (e : ℚ) - (i : ℚ) ≤ 0 := by
      rcases div_nonpos_iff.mp hdiv with ⟨_, h2⟩ | ⟨h1, _⟩
      · linarith
      · exact h1
    have hcastle : (e : ℚ) ≤ (i : ℚ) := by linarith
    have hle : e ≤ i := by exact_mod_cast hcastle
    have hknn : decide (0 ≤ k) = true := decide_eq_true (by omega)
    rw [if_pos hknn]
    have : ¬(i < e) := by omega
    exact decide_eq_false this

/-- When the count formula is positive the loop condition of `visit_fornode`
is true at the start index (integer-valued bounds and step). -/
lemma cond_true_of_count_pos {i e k : Int} (hk : k ≠ 0)
    (h : 0 < forSpecCount i e k) :
    (if PyNumber.geZerob (.int k) then PyNumber.ltb (.int i) (.int e)
     else PyNumber.ltb (.int e) (.int i)) = true := by
  rw [PyNumber.geZerob_int, PyNumber.ltb_int_int, PyNumber.ltb_int_int]
  have hceil : 0 < ⌈((e : ℚ) - (i : ℚ)) / (k : ℚ)⌉ := by
    simp only [forSpecCount] at h
    omega
  have hdiv : 0 < ((e : ℚ) - (i : ℚ)) / (k : ℚ) := by
    have := Int.lt_ceil.mp hceil
    simpa using this
  rcases lt_or_gt_of_ne hk with hneg | hpos
  · have hknegQ : (k : ℚ) < 0 := by exact_mod_cast hneg
    have : (e : ℚ) - (i : ℚ) < 0 := by
      rcases div_pos_iff.mp hdiv with ⟨_, h2⟩ | ⟨h1, _⟩
      · linarith
      · exact h1
    have : (e : ℚ) < (i : ℚ) := by linarith
    have hlt : e < i := by exact_mod_cast this
    have hkneg : ¬(decide (0 ≤ k) = true) := by simp; omega
    rw [if_neg hkneg]
    exact decide_eq_true hlt
  · have hkposQ : (0 : ℚ) < k := by exact_mod_cast hpos
    have : 0 < (e : ℚ) - (i : ℚ) := by
      rcases div_pos_iff.mp hdiv with ⟨h1, _⟩ | ⟨_, h2⟩
      · exact h1
      · linarith
    have : (i : ℚ) < (e : ℚ) := by linarith
    have hlt : i < e := by exact_mod_cast this
    have hknn : decide (0 ≤ k) = true := decide_eq_true (by omega)
    rw [if_pos hknn]
    exact decide_eq_true hlt

/-- Advancing the index by one step decrements the count formula. -/
lemma count_shift {i e k : Int} (hk : k ≠ 0) (h : 0 < forSpecCount i e k) :
    forSpecCount (i + k) e k = forSpecCount i e k - 1 := by
  have hkQ : (k : ℚ) ≠ 0 := by exact_mod_cast hk
  have hstep : ((e : ℚ) - ((i : ℚ) + (k : ℚ))) / (k : ℚ)
      = ((e : ℚ) - (i : ℚ)) / (k : ℚ) - 1 := by
    field_simp
    ring
  have hceilpos : 0 < ⌈((e : ℚ) - (i : ℚ)) / (k : ℚ)⌉ := by
    simp only [forSpecCount] at h
    omega
  simp only [forSpecCount]
  push_cast
  rw [hstep, Int.ceil_sub_one]
  omega

/-- A `NumberNode` evaluates to its `Number` with any positive fuel, leaving
the environment unchanged. -/
lemma run_numberNode (fuel : Nat) (hf : 1 ≤ fuel) (c : PyNumber) (st : SymbolTable) :
    run fuel (.node (.numberNode c)) st = .ok (RuntimeResult.new.success (.number c)) st := by
  obtain ⟨f, rfl⟩ : ∃ f, fuel = f + 1 := ⟨fuel - 1, by omega⟩
  rfl

/-- With a trivial (`NumberNode`) body, the `while` loop of `visit_fornode`
performs exactly the iterations predicted by the count formula, collects one
body value per iteration, and leaves the loop variable bound to the value set
in the LAST iteration — the index BEFORE the final increment, i.e.
`i + k * (n - 1)`. -/
lemma forWhile_numberBody (v : String) (c : PyNumber) (e k : Int) (srn : Bool) (hk : k ≠ 0) :
    ∀ (n : Nat) (i : Int) (elements : List Value) (rr : RuntimeResult)
      (st : SymbolTable) (fuel : Nat),
      (n : Int) = forSpecCount i e k →
      n + 2 ≤ fuel →
      run fuel (.forWhile v (.numberNode c) (.int e) (.int k) (.int i) elements rr srn) st
        = .ok (RuntimeResult.new.success
            (if srn then Value.number (.int 0)
             else .list (elements ++ List.replicate n (.number c))))
          (if n = 0 then st
           else st.set v (.number (.int (i + k * ((n : Int) - 1))))) := by
  intro n
  induction n with
  | zero =>
    intro i elements rr st fuel hcount hfuel
    obtain ⟨f, rfl⟩ : ∃ f, fuel = f + 1 := ⟨fuel - 1, by omega⟩
    have hzero : forSpecCount i e k = 0 := by push_cast at hcount; omega
    have hcond := cond_false_of_count_zero hk hzero
    simp only [run]
    rw [hcond]
    simp [RuntimeResult.success]
  | succ m ih =>
    intro i elements rr st fuel hcount hfuel
    obtain ⟨f, rfl⟩ : ∃ f, fuel = f + 1 := ⟨fuel - 1, by omega⟩
    have hpos : 0 < forSpecCount i e k := by push_cast at hcount; omega
    have hcond := cond_true_of_count_pos hk hpos
    have hshift := count_shift hk hpos
    have hbody : run f (.node (.numberNode c)) (st.set v (.number (.int i)))
        = .ok (RuntimeResult.new.success (.number c)) (st.set v (.number (.int i))) :=
      run_numberNode f (by omega) c _
    simp only [run]
    rw [hcond, hbody]
    simp only [RuntimeResult.register, RuntimeResult.success, RuntimeResult.should_return,
      Option.isSome_none, Bool.false_or, Bool.or_false, Bool.not_false, Bool.and_true,
      Bool.false_and, Bool.and_false, if_false, Bool.false_eq_true,
      PyNumber.add_int_int]
    have hm : (m : Int) = forSpecCount (i + k) e k := by
      rw [hshift]
      push_cast at hcount ⊢
      omega
    rw [ih (i + k) (elements ++ [Value.number c]) _ (st.set v (Value.number (.int i))) f hm
      (by omega)]
    have hlist : (elements ++ [Value.number c]) ++ List.replicate m (Value.number c)
        = elements ++ List.replicate (m + 1) (Value.number c) := by
      rw [List.append_assoc, List.replicate_succ]
      rfl
    rw [hlist]
    by_cases hm0 : m = 0
    · subst hm0
      norm_num [RuntimeResult.success]
    · rw [if_neg hm0, SymbolTable.set_set]
      have harith : i + k + k * ((m : Int) - 1) = i + k * ((((m : Nat) + 1 : Nat) : Int) - 1) := by
        push_cast
        ring
      rw [harith]
      norm_num [RuntimeResult.success]

/-- `visit_fornode` prelude: once start, end and step evaluate to plain
numbers, evaluation proceeds to the `while` loop with the extracted integers,
an empty element list, and a clean shared result. -/
lemma run_forNode_step (fuel : Nat) (v : String) (startN endN stepN body : Node)
    (srn : Bool) (st st1 st2 st3 : SymbolTable) (sv ev kv : PyNumber)
    (hs : run fuel (.node startN) st = .ok (RuntimeResult.new.success (.number sv)) st1)
    (he : run fuel (.node endN) st1 = .ok (RuntimeResult.new.success (.number ev)) st2)
    (hk : run fuel (.node stepN) st2 = .ok (RuntimeResult.new.success (.number kv)) st3) :
    run (fuel + 1) (.node (.forNode v startN endN (some stepN) body srn)) st
      = run fuel (.forWhile v body ev kv sv [] ⟨none, none, none, false, false⟩ srn) st3 := by
  simp only [run, hs, he, hk, RuntimeResult.register, RuntimeResult.success,
    RuntimeResult.new, RuntimeResult.should_return, Option.isSome_none, Bool.false_or,
    Bool.or_false, if_false, Bool.false_eq_true, Option.some_bind, Value.asNumber]

/-- Full evaluation of a for-loop with literal bounds and a trivial body:
result value and final environment, as a function of the iteration count. -/
lemma visit_forNode_numberBody (v : String) (c : PyNumber) (s e k : Int) (srn : Bool)
    (st : SymbolTable) (hk : k ≠ 0) :
    ∀ n : Nat, (n : Int) = forSpecCount s e k →
    visit (n + 4) (.forNode v (.numberNode (.int s)) (.numberNode (.int e))
        (some (.numberNode (.int k))) (.numberNode c) srn) st
      = .ok (RuntimeResult.new.success
          (if srn then Value.number (.int 0) else .list (List.replicate n (.number c))))
        (if n = 0 then st else st.set v (.number (.int (s + k * ((n : Int) - 1))))) := by
  intro n hn
  show run (n + 3 + 1) _ st = _
  rw [run_forNode_step (n + 3) v _ _ _ _ srn st st st st (.int s) (.int e) (.int k)
    (run_numberNode (n + 3) (by omega) (.int s) st)
    (run_numberNode (n + 3) (by omega) (.int e) st)
    (run_numberNode (n + 3) (by omega) (.int k) st)]
  rw [forWhile_numberBody v c e k srn hk n s [] _ st (n + 3) hn (by omega)]
  simp

/-- A loop body "always completes normally" when, given enough fuel, its
evaluation from any environment yields a plain success. -/
def AlwaysNormal (body : Node) (b : Nat) : Prop :=
  ∀ fuel st, b ≤ fuel →
    ∃ v2 st2, run fuel (.node body) st = .ok (RuntimeResult.new.success v2) st2

/-- The iteration-count formula is never negative. -/
lemma forSpecCount_nonneg (s e k : Int) : 0 ≤ forSpecCount s e k :=
  le_max_left 0 _

/-- With any body that always completes normally, the `while` loop of
`visit_fornode` terminates and appends exactly one element per iteration,
performing the number of iterations predicted by the count formula. -/
lemma forWhile_alwaysNormal (v : String) (body : Node) (b : Nat)
    (hbody : AlwaysNormal body b) (e k : Int) (srn : Bool) (hk : k ≠ 0) :
    ∀ (n : Nat) (i : Int) (elements : List Value) (rr : RuntimeResult)
      (st : SymbolTable) (fuel : Nat),
      (n : Int) = forSpecCount i e k →
      n + 2 + b ≤ fuel →
      ∃ (newElems : List Value) (st2 : SymbolTable),
        run fuel (.forWhile v body (.int e) (.int k) (.int i) elements rr srn) st
          = .ok (RuntimeResult.new.success
              (if srn then Value.number (.int 0) else .list (elements ++ newElems))) st2
        ∧ newElems.length = n := by
  intro n
  induction n with
  | zero =>
    intro i elements rr st fuel hcount hfuel
    obtain ⟨f, rfl⟩ : ∃ f, fuel = f + 1 := ⟨fuel - 1, by omega⟩
    have hzero : forSpecCount i e k = 0 := by push_cast at hcount; omega
    have hcond := cond_false_of_count_zero hk hzero
    refine ⟨[], st, ?_, rfl⟩
    simp only [run]
    rw [hcond]
    simp [RuntimeResult.success]
  | succ m ih =>
    intro i elements rr st fuel hcount hfuel
    obtain ⟨f, rfl⟩ : ∃ f, fuel = f + 1 := ⟨fuel - 1, by omega⟩
    have hpos : 0 < forSpecCount i e k := by push_cast at hcount; omega
    have hcond := cond_true_of_count_pos hk hpos
    have hshift := count_shift hk hpos
    obtain ⟨bv, stB, hbv⟩ := hbody f (st.set v (.number (.int i))) (by omega)
    have hm : (m : Int) = forSpecCount (i + k) e k := by
      rw [hshift]
      push_cast at hcount ⊢
      omega
    obtain ⟨newElems, st3, heq, hlen⟩ :=
      ih (i + k) (elements ++ [bv]) ⟨rr.value, none, none, false, false⟩ stB f hm (by omega)
    refine ⟨bv :: newElems, st3, ?_, by simp [hlen]⟩
    simp only [run]
    rw [hcond, hbv]
    simp only [RuntimeResult.register, RuntimeResult.success, RuntimeResult.should_return,
      Option.isSome_none, Bool.false_or, Bool.or_false, Bool.not_false, Bool.and_true,
      Bool.false_and, Bool.and_false, if_false, Bool.false_eq_true,
      PyNumber.add_int_int]
    rw [heq]
    simp [RuntimeResult.success]

/-- A name absent from the whole parent chain is not found by `get`. -/
lemma SymbolTable.get_none_of_chainContains_false :
    ∀ (st : SymbolTable) (n : String), st.chainContains n = false → st.get n = none
  | .mk syms none, n, h => by
    rw [SymbolTable.chainContains] at h
    rw [SymbolTable.get]
    cases hlk : lookupKey syms n with
    | some w => rw [hlk] at h; simp at h
    | none => rfl
  | .mk syms (some p), n, h => by
    rw [SymbolTable.chainContains] at h
    rw [SymbolTable.get]
    cases hlk : lookupKey syms n with
    | some w => rw [hlk] at h; simp at h
    | none =>
      rw [hlk] at h
      simp only [Option.isSome_none, Bool.false_or, SymbolTable.chainContainsOpt] at h
      show SymbolTable.getOpt (some p) n = none
      exact SymbolTable.get_none_of_chainContains_false p n h

/-- `removeKey` fails (Python `KeyError`) exactly when the key is absent. -/
lemma removeKey_eq_none_iff (l : List (String × Value)) (n : String) :
    removeKey l n = none ↔ lookupKey l n = none := by
  induction l with
  | nil => simp [removeKey, lookupKey]
  | cons hd tl ih =>
    obtain ⟨k, w⟩ := hd
    by_cases hkn : k = n
    · subst hkn
      simp [removeKey, lookupKey]
    · simp only [removeKey, lookupKey, if_neg hkn]
      rw [← ih]
      cases removeKey tl n <;> simp

/-- The head of a table's parent chain is the table itself. -/
lemma chain_get_zero (st : SymbolTable) : st.chain.get? 0 = some st := by
  cases st with
  | mk syms parent =>
    rw [SymbolTable.chain]
    rfl

/-- A name bound in the local dictionary of the i-th table of the chain and
absent from the local dictionaries of all nearer tables is found by `get`. -/
lemma c8_lookup_chain : ∀ (i : Nat) (d s : SymbolTable) (n : String) (v : Value),
    d.chain.get? i = some s →
    lookupKey s.symbols n = some v →
    (∀ j, j < i → ∀ t, d.chain.get? j = some t → lookupKey t.symbols n = none) →
    d.get n = some v := by
  intro i
  induction i with
  | zero =>
    intro d s n v hS hbound hshadow
    rw [chain_get_zero] at hS
    injection hS with hds
    subst hds
    cases d with
    | mk syms parent =>
      rw [SymbolTable.symbols] at hbound
      rw [SymbolTable.get, hbound]
  | succ i ih =>
    intro d s n v hS hbound hshadow
    cases d with
    | mk syms parent =>
      have hj0 : lookupKey syms n = none := by
        have := hshadow 0 (by omega) (.mk syms parent) (chain_get_zero _)
        rwa [SymbolTable.symbols] at this
      rw [SymbolTable.chain] at hS
      cases parent with
      | none =>
        simp [SymbolTable.chainOpt] at hS
      | some p =>
        rw [SymbolTable.get, hj0]
        show p.get n = some v
        apply ih p s n v ?_ hbound ?_
        · simpa [SymbolTable.chainOpt] using hS
        · intro j hj t ht
          apply hshadow (j + 1) (by omega) t
          rw [SymbolTable.chain]
          simpa [SymbolTable.chainOpt] using ht

/-- `concatFrames` distributes over list append. -/
lemma concatFrames_append (a b : List (Position × String)) :
    concatFrames (a ++ b) = concatFrames a ++ concatFrames b := by
  induction a with
  | nil => simp [concatFrames, String.empty_append]
  | cons hd tl ih =>
    obtain ⟨p, d⟩ := hd
    simp only [List.cons_append, List.append_eq, concatFrames, ih, String.append_assoc]

/-- The traceback loop produces exactly the collected frames in REVERSED
order (the prepending makes the innermost frame end up last). -/
lemma tracebackLoop_eq : ∀ (fr : List (Position × String)) (c : Context) (p : Position)
    (acc : String),
    contextFrames c p = some fr →
    generateTracebackLoop c p acc = some (concatFrames fr.reverse ++ acc) := by
  intro fr
  induction fr with
  | nil =>
    intro c p acc h
    cases c with
    | mk d pep pc =>
      rw [contextFrames] at h
      cases hstep : contextFramesStep pc pep with
      | some rest => rw [hstep] at h; simp at h
      | none => rw [hstep] at h; simp at h
  | cons hd rest ih =>
    intro c p acc h
    obtain ⟨p0, d0⟩ := hd
    cases c with
    | mk d pep pc =>
      rw [contextFrames] at h
      cases hstep : contextFramesStep pc pep with
      | none => rw [hstep] at h; simp at h
      | some r =>
        rw [hstep] at h
        simp only [Option.some.injEq, List.cons.injEq, Prod.mk.injEq] at h
        obtain ⟨⟨hp, hd0⟩, rfl⟩ := h
        rw [← hp, ← hd0]
        rw [generateTracebackLoop]
        cases pc with
        | none =>
          simp only [contextFramesStep, Option.some.injEq] at hstep
          subst hstep
          simp [generateTracebackStep, concatFrames, String.append_empty, String.append_assoc]
        | some c1 =>
          cases pep with
          | none => simp [contextFramesStep] at hstep
          | some p1 =>
            show generateTracebackLoop c1 p1 (frameString p d ++ acc) = _
            rw [ih c1 p1 (frameString p d ++ acc) hstep]
            simp [List.reverse_cons, concatFrames_append, concatFrames,
              String.append_assoc, String.append_empty]

/-- The frame collection has one entry per context of the chain. -/
lemma contextFrames_length : ∀ (fr : List (Position × String)) (c : Context) (p : Position),
    contextFrames c p = some fr → fr.length = c.chainLength := by
  intro fr
  induction fr with
  | nil =>
    intro c p h
    cases c with
    | mk d pep pc =>
      rw [contextFrames] at h
      cases hstep : contextFramesStep pc pep with
      | some rest => rw [hstep] at h; simp at h
      | none => rw [hstep] at h; simp at h
  | cons hd rest ih =>
    intro c p h
    cases c with
    | mk d pep pc =>
      rw [contextFrames] at h
      cases hstep : contextFramesStep pc pep with
      | none => rw [hstep] at h; simp at h
      | some r =>
        rw [hstep] at h
        simp only [Option.some.injEq, List.cons.injEq] at h
        obtain ⟨_, hr⟩ := h
        subst hr
        rw [Context.chainLength]
        cases pc with
        | none =>
          simp only [contextFramesStep, Option.some.injEq] at hstep
          subst hstep
          simp [Context.chainLengthOpt]
        | some c1 =>
          cases pep with
          | none => simp [contextFramesStep] at hstep
          | some p1 =>
            have hlen := ih c1 p1 hstep
            simp [Context.chainLengthOpt, hlen]

/-- The combined result of registering the left and then the right child
result into a fresh `RuntimeResult`, as `visit_binopnode` does. -/
def registeredPair (a b : RuntimeResult) : RuntimeResult :=
  ((RuntimeResult.new.register a).1.register b).1

/-- `get` for a different name is unaffected by `set`. -/
lemma SymbolTable.get_set_other (st : SymbolTable) (n m : String) (v : Value)
    (h : m ≠ n) : (st.set n v).get m = st.get m := by
  cases st with
  | mk syms parent =>
    show SymbolTable.get (.mk (setKey syms n v) parent) m
      = SymbolTable.get (.mk syms parent) m
    simp only [SymbolTable.get]
    rw [lookupKey_setKey_other syms n m v h]

/-- A loop body "always completes normally without disturbing the loop
variable" when, given enough fuel, its evaluation from any environment
yields a plain success and leaves the binding of `v` unchanged. -/
def PreservesVar (body : Node) (b : Nat) (v : String) : Prop :=
  ∀ fuel st, b ≤ fuel →
    ∃ val st2, run fuel (.node body) st = .ok (RuntimeResult.new.success val) st2
      ∧ st2.get v = st.get v

/-- With any body that always completes normally and preserves the loop
variable, the `while` loop of `visit_fornode` over integer bounds performs
the predicted number of iterations and, when it iterates at least once,
leaves the loop variable bound to the value set in the last iteration:
`i + k * (n - 1)`. -/
lemma forWhile_preservesVar (v : String) (body : Node) (b : Nat)
    (hbody : PreservesVar body b v) (e k : Int) (srn : Bool) (hk : k ≠ 0) :
    ∀ (n : Nat) (i : Int) (elements : List Value) (rr : RuntimeResult)
      (st : SymbolTable) (fuel : Nat),
      (n : Int) = forSpecCount i e k →
      n + 2 + b ≤ fuel →
      ∃ (newElems : List Value) (st2 : SymbolTable),
        run fuel (.forWhile v body (.int e) (.int k) (.int i) elements rr srn) st
          = .ok (RuntimeResult.new.success
              (if srn then Value.number (.int 0) else .list (elements ++ newElems))) st2
        ∧ newElems.length = n
        ∧ (n = 0 → st2 = st)
        ∧ (1 ≤ n → st2.get v = some (.number (.int (i + k * ((n : Int) - 1))))) := by
  intro n
  induction n with
  | zero =>
    intro i elements rr st fuel hcount hfuel
    obtain ⟨f, rfl⟩ : ∃ f, fuel = f + 1 := ⟨fuel - 1, by omega⟩
    have hzero : forSpecCount i e k = 0 := by push_cast at hcount; omega
    have hcond := cond_false_of_count_zero hk hzero
    refine ⟨[], st, ?_, rfl, fun _ => rfl, fun h => absurd h (by omega)⟩
    simp only [run]
    rw [hcond]
    simp [RuntimeResult.success]
  | succ m ih =>
    intro i elements rr st fuel hcount hfuel
    obtain ⟨f, rfl⟩ : ∃ f, fuel = f + 1 := ⟨fuel - 1, by omega⟩
    have hpos : 0 < forSpecCount i e k := by push_cast at hcount; omega
    have hcond := cond_true_of_count_pos hk hpos
    have hshift := count_shift hk hpos
    obtain ⟨bv, stB, hbv, hpres⟩ := hbody f (st.set v (.number (.int i))) (by omega)
    have hm : (m : Int) = forSpecCount (i + k) e k := by
      rw [hshift]
      push_cast at hcount ⊢
      omega
    obtain ⟨newElems, st3, heq, hlen, hz, hp⟩ :=
      ih (i + k) (elements ++ [bv]) ⟨rr.value, none, none, false, false⟩ stB f hm (by omega)
    refine ⟨bv :: newElems, st3, ?_, by simp [hlen],
      fun h => absurd h (by omega), fun _ => ?_⟩
    · simp only [run]
      rw [hcond, hbv]
      simp only [RuntimeResult.register, RuntimeResult.success, RuntimeResult.should_return,
        Option.isSome_none, Bool.false_or, Bool.or_false, Bool.not_false, Bool.and_true,
        Bool.false_and, Bool.and_false, if_false, Bool.false_eq_true,
        PyNumber.add_int_int]
      rw [heq]
      simp [RuntimeResult.success]
    · by_cases hm0 : m = 0
      · rw [hz hm0, hpres, SymbolTable.get_set_self]
        subst hm0
        norm_num
      · rw [hp (by omega)]
        have : i + k + k * ((m : Int) - 1) = i + k * ((((m : Nat) + 1 : Nat) : Int) - 1) := by
          push_cast
          ring
        rw [this]


/-!
Claim theorems.
-/

/-- C1: the claim says that accessing a variable bound nowhere in the
environment chain fails with the runtime error `VAR <name> not defined`,
returning an error-carrying result rather than crashing.  The code`s
`visit_varaccessnode` builds that failure but never returns it: it falls
through to `var_value.copy()` on Python `None`, so evaluation CRASHES with an
`AttributeError` instead of returning the error-carrying result — the claim
describes the evident intent, the code drops the `return`. -/
theorem c1_undefined_var_access_crashes (fuel : Nat) (name : String) (st : SymbolTable)
    (h : st.get name = none) :
    visit (fuel + 1) (.varAccessNode name) st
      = .crash "AttributeError: NoneType object has no attribute copy" := by
  show run (fuel + 1) _ st = _
  simp only [run, h]

/-- C1 witness: the concrete lookup of `x` in a fresh environment crashes. -/
theorem c1_undefined_var_access_crashes_witness :
    (SymbolTable.new none).get "x" = none
    ∧ visit 2 (.varAccessNode "x") (SymbolTable.new none)
        = .crash "AttributeError: NoneType object has no attribute copy" :=
  ⟨rfl, c1_undefined_var_access_crashes 1 "x" (SymbolTable.new none) rfl⟩

/-- C2: for a user-function invocation with matching arity whose body
evaluation yields a `success_return` signal, the call returns the carried
value regardless of the auto-return flag; when the body instead completes
normally with a value, the call returns that value if auto-return is set and
`Number(0)` otherwise. -/
theorem c2_function_return_value_selection (f : FunctionV) (args : List Value)
    (fuel : Nat) (bodyRes : RuntimeResult) (st2 : SymbolTable)
    (hlen : args.length = f.arg_names.length)
    (hbody : visit fuel f.body_node
        (check_and_populate_args f.arg_names args (SymbolTable.new f.captured_context_env)).2
      = .ok bodyRes st2) :
    (∀ rv, bodyRes = RuntimeResult.new.success_return rv →
        f.execute fuel args = .ok (RuntimeResult.new.success rv))
    ∧ (∀ nv, bodyRes = RuntimeResult.new.success nv →
        f.execute fuel args
          = .ok (RuntimeResult.new.success
              (if f.should_auto_return then nv else .number (.int 0)))) := by
  have hnotlt1 : ¬(f.arg_names.length < args.length) := by omega
  have hnotlt2 : ¬(args.length < f.arg_names.length) := by omega
  simp only [check_and_populate_args, if_neg hnotlt1, if_neg hnotlt2] at hbody
  constructor
  · intro rv hrv
    subst hrv
    simp only [FunctionV.execute, check_and_populate_args, if_neg hnotlt1, if_neg hnotlt2,
      RuntimeResult.register, RuntimeResult.new, RuntimeResult.should_return,
      RuntimeResult.success_return, RuntimeResult.success,
      Option.isSome_none, Bool.false_or, Bool.or_false, if_false, Bool.false_eq_true,
      hbody, Option.isSome_some, Option.isNone_none, Option.isNone_some,
      Bool.true_and, Bool.and_false, ite_self]
  · intro nv hnv
    subst hnv
    simp only [FunctionV.execute, check_and_populate_args, if_neg hnotlt1, if_neg hnotlt2,
      RuntimeResult.register, RuntimeResult.new, RuntimeResult.should_return,
      RuntimeResult.success,
      Option.isSome_none, Bool.false_or, Bool.or_false, if_false, Bool.false_eq_true,
      hbody, Option.isNone_none, Bool.and_true, Bool.false_and]
    cases hauto : f.should_auto_return <;> simp [RuntimeResult.success]

/-- C2 witness: a RETURN 5 body wins over a disabled auto-return flag, and a
plain `9` body with auto-return disabled yields Number(0). -/
theorem c2_function_return_value_selection_witness :
    FunctionV.execute 3
        ⟨none, .returnNode (some (.numberNode (.int 5))), [], false, none⟩ []
      = .ok (RuntimeResult.new.success (.number (.int 5)))
    ∧ FunctionV.execute 3 ⟨none, .numberNode (.int 9), [], false, none⟩ []
      = .ok (RuntimeResult.new.success (.number (.int 0))) := by
  constructor
  · exact (c2_function_return_value_selection
      ⟨none, .returnNode (some (.numberNode (.int 5))), [], false, none⟩ [] 3
      (RuntimeResult.new.success_return (.number (.int 5))) _ rfl rfl).1 _ rfl
  · exact (c2_function_return_value_selection
      ⟨none, .numberNode (.int 9), [], false, none⟩ [] 3
      (RuntimeResult.new.success (.number (.int 9))) _ rfl rfl).2 _ rfl

/-- C3 counterexample: the claim says a non-normal left-operand result is
propagated unchanged and the right operand is not evaluated.  With a break
signal on the left and a continue signal on the right, `visit_binopnode`
evaluates the right operand anyway and its registration OVERWRITES the
left's signals: the whole node yields the continue signal, not the left's
break. -/
theorem c3_left_signal_not_propagated_counterexample :
    visit 2 (.binOpNode .breakNode .plus .continueNode) (SymbolTable.new none)
      = .ok RuntimeResult.new.success_continue (SymbolTable.new none)
    ∧ RuntimeResult.new.success_break.loop_should_break = true
    ∧ RuntimeResult.new.success_continue.loop_should_break = false
    ∧ RuntimeResult.new.success_continue.loop_should_continue = true :=
  ⟨rfl, rfl, rfl, rfl⟩

/-- C3 amended: `visit_binopnode` evaluates BOTH operands unconditionally, in
left-then-right order; the right child's error and control-flow signals
overwrite the left's in the shared result, and only the combined result after
both registrations is checked and returned when non-normal. -/
theorem c3_amended_both_operands_evaluated (fuel : Nat) (l r : Node) (op : BinOp)
    (st st1 st2 : SymbolTable) (resL resR : RuntimeResult)
    (hl : visit fuel l st = .ok resL st1)
    (hr : visit fuel r st1 = .ok resR st2)
    (hnn : (registeredPair resL resR).should_return = true) :
    visit (fuel + 1) (.binOpNode l op r) st = .ok (registeredPair resL resR) st2 := by
  show run (fuel + 1) _ st = _
  simp only [visit] at hl hr
  simp only [registeredPair] at hnn ⊢
  simp only [run, hl, hr, hnn, if_true]

/-- C3 amended witness: the break-then-continue instance, with the combined
registered result carrying only the right child's continue signal. -/
theorem c3_amended_both_operands_evaluated_witness :
    visit 1 Node.breakNode (SymbolTable.new none)
        = .ok RuntimeResult.new.success_break (SymbolTable.new none)
    ∧ visit 1 Node.continueNode (SymbolTable.new none)
        = .ok RuntimeResult.new.success_continue (SymbolTable.new none)
    ∧ (registeredPair RuntimeResult.new.success_break
        RuntimeResult.new.success_continue).should_return = true
    ∧ visit 2 (.binOpNode .breakNode .plus .continueNode) (SymbolTable.new none)
        = .ok (registeredPair RuntimeResult.new.success_break
            RuntimeResult.new.success_continue) (SymbolTable.new none) :=
  ⟨rfl, rfl, rfl,
    c3_amended_both_operands_evaluated 1 _ _ .plus _ _ _ _ _ rfl rfl rfl⟩

/-- C4: for every BinOpNode whose operator is keyword AND or OR, both operand
expressions are evaluated before the logical operation is applied, and in
left-then-right order: the right operand is evaluated from the left's
post-state `st1`, the node's final environment is the right's post-state
`st2`, and the outcome is the operation applied to BOTH computed values —
also when the left value alone would determine the logical result. -/
theorem c4_and_or_evaluate_both_operands (fuel : Nat) (l r : Node) (op : BinOp)
    (_hop : op = .andKw ∨ op = .orKw) (st st1 st2 : SymbolTable) (lv rv : Value)
    (hl : visit fuel l st = .ok (RuntimeResult.new.success lv) st1)
    (hr : visit fuel r st1 = .ok (RuntimeResult.new.success rv) st2) :
    visit (fuel + 1) (.binOpNode l op r) st
      = (match applyBinOp op lv rv with
         | .ok res => .ok (RuntimeResult.new.success res) st2
         | .error err => .ok (RuntimeResult.new.failure err) st2) := by
  show run (fuel + 1) _ st = _
  simp only [visit] at hl hr
  simp only [run, hl, hr, RuntimeResult.register, RuntimeResult.new, RuntimeResult.success,
    RuntimeResult.should_return, Option.isSome_none, Bool.false_or, Bool.or_false,
    if_false, Bool.false_eq_true]
  cases applyBinOp op lv rv <;> simp [RuntimeResult.failure, RuntimeResult.success]

/-- C4 witness: with a falsy left operand under AND (and a truthy one under
OR) — where the left alone already determines the logical result — the
right-hand assignment side effect still lands in the environment and the
result is computed from both values. -/
theorem c4_and_or_evaluate_both_operands_witness :
    visit 3 (.binOpNode (.numberNode (.int 0)) .andKw
        (.varAssignNode "y" (.numberNode (.int 7)))) (SymbolTable.new none)
      = .ok (RuntimeResult.new.success (.number (.int 0)))
        ((SymbolTable.new none).set "y" (.number (.int 7)))
    ∧ visit 3 (.binOpNode (.numberNode (.int 1)) .orKw
        (.varAssignNode "y" (.numberNode (.int 7)))) (SymbolTable.new none)
      = .ok (RuntimeResult.new.success (.number (.int 1)))
        ((SymbolTable.new none).set "y" (.number (.int 7))) := by
  constructor
  · exact (c4_and_or_evaluate_both_operands 2 (.numberNode (.int 0))
      (.varAssignNode "y" (.numberNode (.int 7))) .andKw (Or.inl rfl)
      (SymbolTable.new none) (SymbolTable.new none)
      ((SymbolTable.new none).set "y" (.number (.int 7)))
      (.number (.int 0)) (.number (.int 7)) rfl rfl).trans rfl
  · exact (c4_and_or_evaluate_both_operands 2 (.numberNode (.int 1))
      (.varAssignNode "y" (.numberNode (.int 7))) .orKw (Or.inr rfl)
      (SymbolTable.new none) (SymbolTable.new none)
      ((SymbolTable.new none).set "y" (.number (.int 7)))
      (.number (.int 1)) (.number (.int 7)) rfl rfl).trans rfl

/-- C5 counterexample: the claim says `remove` does not fail when the name is
absent from the local scope; but `remove` is `del self.symbols[name]`, which
raises `KeyError` (modelled as `none`) on a fresh table for an unbound
name. -/
theorem c5_remove_absent_name_counterexample :
    (SymbolTable.new none).localContains "x" = false
    ∧ (SymbolTable.new none).remove "x" = none :=
  ⟨rfl, rfl⟩

/-- C5 amended: `get` on a name absent from the whole chain returns none
rather than failing, `set` always succeeds and writes only the local scope,
and `remove` deletes from the local scope but raises `KeyError` exactly when
the name is absent there. -/
theorem c5_amended_operation_failure_modes :
    (∀ (st : SymbolTable) (n : String), st.chainContains n = false → st.get n = none)
    ∧ (∀ (st : SymbolTable) (n : String) (v : Value),
        (st.set n v).get n = some v ∧ (st.set n v).parent = st.parent)
    ∧ (∀ (st : SymbolTable) (n : String),
        st.localContains n = false → st.remove n = none)
    ∧ (∀ (st : SymbolTable) (n : String),
        st.localContains n = true → ∃ st2, st.remove n = some st2) := by
  refine ⟨SymbolTable.get_none_of_chainContains_false, ?_, ?_, ?_⟩
  · intro st n v
    exact ⟨SymbolTable.get_set_self st n v, by cases st; rfl⟩
  · intro st n h
    have hrk : removeKey st.symbols n = none := by
      rw [removeKey_eq_none_iff]
      simp only [SymbolTable.localContains] at h
      cases hlk : lookupKey st.symbols n with
      | none => rfl
      | some w => rw [hlk] at h; simp at h
    simp only [SymbolTable.remove, hrk]
  · intro st n h
    simp only [SymbolTable.localContains] at h
    cases hrk : removeKey st.symbols n with
    | some syms1 =>
      exact ⟨.mk syms1 st.parent, by simp only [SymbolTable.remove, hrk]⟩
    | none =>
      rw [removeKey_eq_none_iff] at hrk
      rw [hrk] at h
      simp at h

/-- C5 amended witness: concrete instances of all four conjuncts on a fresh
table. -/
theorem c5_amended_operation_failure_modes_witness :
    ((SymbolTable.new none).chainContains "x" = false ∧ (SymbolTable.new none).get "x" = none)
    ∧ (((SymbolTable.new none).set "y" (.number (.int 5))).get "y"
          = some (.number (.int 5))
        ∧ ((SymbolTable.new none).set "y" (.number (.int 5))).parent
          = (SymbolTable.new none).parent)
    ∧ ((SymbolTable.new none).localContains "z" = false
        ∧ (SymbolTable.new none).remove "z" = none)
    ∧ ((SymbolTable.new none).localContains "TRUE" = true
        ∧ ∃ st2, (SymbolTable.new none).remove "TRUE" = some st2) :=
  ⟨⟨rfl, c5_amended_operation_failure_modes.1 _ _ rfl⟩,
    c5_amended_operation_failure_modes.2.1 _ _ _,
    ⟨rfl, c5_amended_operation_failure_modes.2.2.1 _ _ rfl⟩,
    ⟨rfl, c5_amended_operation_failure_modes.2.2.2 _ _ rfl⟩⟩

/-- C6 counterexample: the claim says the last value bound to the loop
variable equals `s + k * iterations`.  For `FOR i = 0 TO 3` (step 1) the body
runs three times (the result list has three elements), but the environment
holds `i = 2`, not `0 + 1 * 3 = 3`: the variable is bound BEFORE the index is
incremented. -/
theorem c6_last_binding_counterexample :
    visit 20 (.forNode "i" (.numberNode (.int 0)) (.numberNode (.int 3))
        (some (.numberNode (.int 1))) (.numberNode (.int 0)) false) (SymbolTable.new none)
      = .ok (RuntimeResult.new.success
          (.list [.number (.int 0), .number (.int 0), .number (.int 0)]))
        ((SymbolTable.new none).set "i" (.number (.int 2)))
    ∧ ((SymbolTable.new none).set "i" (.number (.int 2))).get "i"
        = some (.number (.int 2))
    ∧ Value.number (.int 2) ≠ Value.number (.int (0 + 1 * 3)) := by
  refine ⟨rfl, rfl, ?_⟩
  intro h
  injection h with h2
  injection h2 with h3
  omega

/-- C6 amended: for a for-loop over integer start `s`, end `e` and nonzero
integer step `k`, with any body that always completes normally and leaves the
loop variable's binding unchanged, a run to normal completion performing at
least one iteration leaves the loop variable bound to
`s + k * (iterations - 1)` — the binding happens before the step increment,
so it lags one step behind the claim`s formula (with float parameters even
this law would be perturbed by the rounded index accumulation). -/
theorem c6_amended_last_binding (body : Node) (b : Nat) (v : String)
    (hbody : PreservesVar body b v) (s e k : Int) (srn : Bool) (st : SymbolTable)
    (hk : k ≠ 0) (hpos : 1 ≤ forSpecCount s e k) :
    ∃ (fuel : Nat) (bodyVals : List Value) (st2 : SymbolTable),
      visit fuel (.forNode v (.numberNode (.int s)) (.numberNode (.int e))
          (some (.numberNode (.int k))) body srn) st
        = .ok (RuntimeResult.new.success
            (if srn then Value.number (.int 0) else .list bodyVals)) st2
      ∧ (bodyVals.length : Int) = forSpecCount s e k
      ∧ st2.get v = some (.number (.int (s + k * (forSpecCount s e k - 1)))) := by
  have hcast : (((forSpecCount s e k).toNat : Nat) : Int) = forSpecCount s e k :=
    Int.toNat_of_nonneg (forSpecCount_nonneg s e k)
  set n : Nat := (forSpecCount s e k).toNat with hn
  refine ⟨(n + 2 + b) + 1, ?_⟩
  have hstep := run_forNode_step (n + 2 + b) v _ _ (.numberNode (.int k)) body srn
    st st st st (.int s) (.int e) (.int k)
    (run_numberNode _ (by omega) (.int s) st) (run_numberNode _ (by omega) (.int e) st)
    (run_numberNode _ (by omega) (.int k) st)
  obtain ⟨newElems, st2, heq, hlen, _hz, hp⟩ :=
    forWhile_preservesVar v body b hbody e k srn hk n s [] ⟨none, none, none, false, false⟩
      st (n + 2 + b) hcast (by omega)
  refine ⟨newElems, st2, ?_, by rw [hlen]; exact hcast, ?_⟩
  · show run ((n + 2 + b) + 1) _ st = _
    rw [hstep, heq]
    simp
  · rw [hp (by omega), hcast]

/-- C6 amended witness: a body assigning a DIFFERENT variable `j` (a
non-trivial body that completes normally without rebinding the loop
variable); `FOR i = 0 TO 3` step 1 runs three iterations and leaves
`i = 0 + 1 * (3 - 1) = 2`. -/
theorem c6_amended_last_binding_witness :
    PreservesVar (.varAssignNode "j" (.numberNode (.int 1))) 2 "i"
    ∧ (1 : Int) ≠ 0 ∧ 1 ≤ forSpecCount 0 3 1
    ∧ (∃ (fuel : Nat) (bodyVals : List Value) (st2 : SymbolTable),
        visit fuel (.forNode "i" (.numberNode (.int 0)) (.numberNode (.int 3))
            (some (.numberNode (.int 1))) (.varAssignNode "j" (.numberNode (.int 1)))
            false) (SymbolTable.new none)
          = .ok (RuntimeResult.new.success
              (if false then Value.number (.int 0) else .list bodyVals)) st2
        ∧ (bodyVals.length : Int) = forSpecCount 0 3 1
        ∧ st2.get "i" = some (.number (.int (0 + 1 * (forSpecCount 0 3 1 - 1))))) := by
  have hpv : PreservesVar (.varAssignNode "j" (.numberNode (.int 1))) 2 "i" := by
    intro fuel st h
    obtain ⟨f, rfl⟩ : ∃ f, fuel = f + 2 := ⟨fuel - 2, by omega⟩
    refine ⟨.number (.int 1), st.set "j" (.number (.int 1)), ?_, ?_⟩
    · have hinner : run (f + 1) (.node (.numberNode (.int 1))) st
          = .ok (RuntimeResult.new.success (.number (.int 1))) st := rfl
      show run (f + 1 + 1) (.node (.varAssignNode "j" (.numberNode (.int 1)))) st = _
      simp only [run, hinner, RuntimeResult.register, RuntimeResult.new,
        RuntimeResult.success, RuntimeResult.should_return, Option.isSome_none,
        Bool.false_or, Bool.or_false, if_false, Bool.false_eq_true]
    · exact SymbolTable.get_set_other st "j" "i" _ (by decide)
  have h3 : forSpecCount 0 3 1 = 3 := by norm_num [forSpecCount]
  exact ⟨hpv, by decide, by rw [h3]; norm_num,
    c6_amended_last_binding _ _ _ hpv 0 3 1 false (SymbolTable.new none) (by decide)
      (by rw [h3]; norm_num)⟩

/-- C7 counterexample: the claim`s iteration-count formula fails for float
steps.  The source literal `0.1` is the binary64 value
`3602879701896397 * 2 ^ (-55)`; `FOR i = 0 TO 1 STEP 0.1` accumulates the
index in binary64, the rounded partial sums stay below 1 for eleven
condition checks (the tenth sum is `9007199254740991 * 2 ^ (-53)`, just
under 1), so the body is evaluated ELEVEN times, while
`max(0, ceil((e - s) / k))` on the actual step value is TEN. -/
theorem c7_float_step_counterexample :
    (∃ st2, visit 40 (.forNode "i" (.numberNode (.int 0)) (.numberNode (.int 1))
        (some (.numberNode (.float 3602879701896397 (-55)))) (.numberNode (.int 0)) false)
        (SymbolTable.new none)
      = .ok (RuntimeResult.new.success
          (.list (List.replicate 11 (.number (.int 0))))) st2)
    ∧ (0 : ℚ) < (PyNumber.float 3602879701896397 (-55)).toRat
    ∧ max 0 ⌈((1 : ℚ) - 0) / (PyNumber.float 3602879701896397 (-55)).toRat⌉ = 10
    ∧ (List.replicate 11 (Value.number (.int 0))).length ≠ 10 := by
  have hval : (PyNumber.float 3602879701896397 (-55)).toRat
      = 3602879701896397 / 36028797018963968 := by
    simp only [PyNumber.toRat, PyNumber.toDyadic]
    rw [zpow_neg]
    norm_num
  refine ⟨⟨_, rfl⟩, ?_, ?_, by simp⟩
  · rw [hval]
    norm_num
  · rw [hval]
    have hq : ((1 : ℚ) - 0) / (3602879701896397 / 36028797018963968)
        = 36028797018963968 / 3602879701896397 := by
      norm_num
    rw [hq]
    have hceil : ⌈(36028797018963968 / 3602879701896397 : ℚ)⌉ = 10 := by
      rw [Int.ceil_eq_iff]
      constructor <;> norm_num
    rw [hceil]
    norm_num

/-- C7 amended: for a for-loop over integer start `s`, end `e` and nonzero
integer step `k` (where index accumulation is exact), with any body that
always completes normally, the loop terminates (any sufficiently large fuel
suffices) and the body is evaluated exactly `max(0, ceil((e - s) / k))`
times — one collected element per body evaluation.  With a float step the
rounded index accumulation can add iterations beyond the formula. -/
theorem c7_for_loop_iteration_count (body : Node) (b : Nat)
    (hbody : AlwaysNormal body b) (v : String) (s e k : Int) (srn : Bool)
    (st : SymbolTable) (hk : k ≠ 0) :
    ∃ (fuel : Nat) (bodyVals : List Value) (st2 : SymbolTable),
      visit fuel (.forNode v (.numberNode (.int s)) (.numberNode (.int e))
          (some (.numberNode (.int k))) body srn) st
        = .ok (RuntimeResult.new.success
            (if srn then Value.number (.int 0) else .list bodyVals)) st2
      ∧ (bodyVals.length : Int) = forSpecCount s e k := by
  have hcast : (((forSpecCount s e k).toNat : Nat) : Int) = forSpecCount s e k :=
    Int.toNat_of_nonneg (forSpecCount_nonneg s e k)
  set n : Nat := (forSpecCount s e k).toNat with hn
  refine ⟨(n + 2 + b) + 1, ?_⟩
  have hstep := run_forNode_step (n + 2 + b) v _ _ (.numberNode (.int k)) body srn
    st st st st (.int s) (.int e) (.int k)
    (run_numberNode _ (by omega) (.int s) st) (run_numberNode _ (by omega) (.int e) st)
    (run_numberNode _ (by omega) (.int k) st)
  obtain ⟨newElems, st2, heq, hlen⟩ :=
    forWhile_alwaysNormal v body b hbody e k srn hk n s [] ⟨none, none, none, false, false⟩
      st (n + 2 + b) hcast (by omega)
  refine ⟨newElems, st2, ?_, by rw [hlen]; exact hcast⟩
  show run ((n + 2 + b) + 1) _ st = _
  rw [hstep, heq]
  simp

/-- C7 amended witness: a constant body always completes normally;
`FOR i = 0 TO 3` step 1 evaluates it exactly three times. -/
theorem c7_for_loop_iteration_count_witness :
    AlwaysNormal (.numberNode (.int 7)) 1 ∧ (1 : Int) ≠ 0 ∧
    (∃ (fuel : Nat) (bodyVals : List Value) (st2 : SymbolTable),
      visit fuel (.forNode "i" (.numberNode (.int 0)) (.numberNode (.int 3))
          (some (.numberNode (.int 1))) (.numberNode (.int 7)) false) (SymbolTable.new none)
        = .ok (RuntimeResult.new.success
            (if false then Value.number (.int 0) else .list bodyVals)) st2
      ∧ (bodyVals.length : Int) = forSpecCount 0 3 1) := by
  have han : AlwaysNormal (.numberNode (.int 7)) 1 := by
    intro fuel st h
    obtain ⟨f, rfl⟩ : ∃ f, fuel = f + 1 := ⟨fuel - 1, by omega⟩
    exact ⟨.number (.int 7), st, rfl⟩
  exact ⟨han, by decide,
    c7_for_loop_iteration_count _ _ han "i" 0 3 1 false (SymbolTable.new none) (by decide)⟩

/-- C8: a name bound in a table S of the chain and not shadowed by a nearer
local binding is retrievable via `get` from every descendant table; and `set`
on a descendant writes only the descendant`s local mapping — the parent link
(and so every ancestor table, S included) is untouched, the written name gets
the new value locally, and every other local entry is unchanged. -/
theorem c8_scope_lookup_and_local_write :
    (∀ (i : Nat) (d s : SymbolTable) (n : String) (v : Value),
        d.chain.get? i = some s →
        lookupKey s.symbols n = some v →
        (∀ j, j < i → ∀ t, d.chain.get? j = some t → lookupKey t.symbols n = none) →
        d.get n = some v)
    ∧ (∀ (d : SymbolTable) (n : String) (v : Value),
        (d.set n v).parent = d.parent
        ∧ lookupKey (d.set n v).symbols n = some v
        ∧ ∀ m, m ≠ n → lookupKey (d.set n v).symbols m = lookupKey d.symbols m) := by
  refine ⟨c8_lookup_chain, ?_⟩
  intro d n v
  cases d with
  | mk syms parent =>
    exact ⟨rfl, lookupKey_setKey_self syms n v,
      fun m hm => lookupKey_setKey_other syms n m v hm⟩

/-- C8 witness: `TRUE` bound in the parent table and not shadowed by the
child`s local `b` binding is retrieved from the child; `set` on the child
leaves the parent link unchanged. -/
theorem c8_scope_lookup_and_local_write_witness :
    (SymbolTable.mk [("b", Value.number (.int 2))] (some (SymbolTable.new none))).get "TRUE"
        = some (.number (.int 1))
    ∧ ((SymbolTable.mk [("b", Value.number (.int 2))] (some (SymbolTable.new none))).set
          "b" (.number (.int 7))).parent
        = (SymbolTable.mk [("b", Value.number (.int 2))] (some (SymbolTable.new none))).parent := by
  constructor
  · refine c8_scope_lookup_and_local_write.1 1 _ (SymbolTable.new none) "TRUE"
      (.number (.int 1)) rfl rfl ?_
    intro j hj t ht
    obtain rfl : j = 0 := by omega
    rw [chain_get_zero] at ht
    injection ht with hteq
    subst hteq
    rfl
  · exact (c8_scope_lookup_and_local_write.2
      (SymbolTable.mk [("b", Value.number (.int 2))] (some (SymbolTable.new none)))
      "b" (.number (.int 7))).1

/-- C9: for every runtime-error context chain whose frame data is collectable
(each non-root context has an entry position), `generate_traceback` produces
the header followed by the collected frames in REVERSE collection order —
the root context`s frame first and the innermost (failure-site) frame last —
with exactly one frame per context of the chain. -/
theorem c9_traceback_root_first (c : Context) (p : Position)
    (fr : List (Position × String))
    (hfr : contextFrames c p = some fr) :
    generate_traceback (some c) p
      = some ("\nTraceback (most recent call last):\n" ++ concatFrames fr.reverse)
    ∧ fr.length = c.chainLength := by
  refine ⟨?_, contextFrames_length fr c p hfr⟩
  simp only [generate_traceback]
  rw [tracebackLoop_eq fr c p "" hfr, String.append_empty]

/-- C9 witness: a two-frame chain (program calling `add`) formats the root
frame first and the failure-site frame last. -/
theorem c9_traceback_root_first_witness :
    contextFrames
        (Context.mk "add" (some ⟨"prog", 3⟩) (some (Context.mk "main" none none)))
        ⟨"prog", 7⟩
      = some [(⟨"prog", 7⟩, "add"), (⟨"prog", 3⟩, "main")]
    ∧ generate_traceback
        (some (Context.mk "add" (some ⟨"prog", 3⟩) (some (Context.mk "main" none none))))
        ⟨"prog", 7⟩
      = some ("\nTraceback (most recent call last):\n"
          ++ concatFrames [((⟨"prog", 7⟩ : Position), "add"),
              (⟨"prog", 3⟩, "main")].reverse)
    ∧ ([((⟨"prog", 7⟩ : Position), "add"), (⟨"prog", 3⟩, "main")].length : Nat)
      = (Context.mk "add" (some ⟨"prog", 3⟩)
          (some (Context.mk "main" none none))).chainLength := by
  refine ⟨rfl, ?_, ?_⟩
  · exact (c9_traceback_root_first
      (Context.mk "add" (some ⟨"prog", 3⟩) (some (Context.mk "main" none none)))
      ⟨"prog", 7⟩ [(⟨"prog", 7⟩, "add"), (⟨"prog", 3⟩, "main")] rfl).1
  · exact (c9_traceback_root_first
      (Context.mk "add" (some ⟨"prog", 3⟩) (some (Context.mk "main" none none)))
      ⟨"prog", 7⟩ [(⟨"prog", 7⟩, "add"), (⟨"prog", 3⟩, "main")] rfl).2

/-- C10: every freshly constructed SymbolTable locally binds NULL to
Number(0), TRUE to Number(1) and FALSE to Number(0); lookups of these names
resolve locally, so whatever any ancestor scope binds them to is invisible in
the new scope. -/
theorem c10_fresh_table_special_values (parent : Option SymbolTable) :
    (SymbolTable.new parent).get "NULL" = some (.number (.int 0))
    ∧ (SymbolTable.new parent).get "TRUE" = some (.number (.int 1))
    ∧ (SymbolTable.new parent).get "FALSE" = some (.number (.int 0))
    ∧ (SymbolTable.new parent).localContains "NULL" = true
    ∧ (SymbolTable.new parent).localContains "TRUE" = true
    ∧ (SymbolTable.new parent).localContains "FALSE" = true :=
  ⟨rfl, rfl, rfl, rfl, rfl, rfl⟩
